import Mathlib

/-!
Verification development for the record-parsing / invoice-matching pipeline of
`src/services/logic.ts` (functions `parseTableText*`, `extractNFInfoFromPDF`,
`findMatchingRow`, `findMatchingRowMagalu`).

Modelling conventions:
* JavaScript strings are modelled as Lean `String`s, with the operations the
  source uses (`trim`, `toUpperCase`, `split`, `includes`, `replace`,
  `match` against the concrete regexes of the source) reimplemented on
  `List Char`.  `toUpperCase` is modelled for ASCII plus the Latin-1
  letters that occur in Portuguese text (the only letters the source's
  string literals and regexes use).
* Monetary values: the source parses a captured string of shape
  `[digits and periods] ',' digit digit` with
  `parseFloat(s.replace(/\./g,'').replace(',','.'))`, i.e. an exact decimal
  with two fractional digits, and later re-renders it with `toFixed(2)`,
  `toString`, `toLocaleString('pt-BR')`.  Amounts are therefore modelled in
  exact fixed-point as a number of cents (`Nat`), the spec's own numeric
  rule ("parse as a fixed-point decimal with 2 fractional digits"), and the
  re-rendering functions are defined on cents.
* The injected logger of the source is purely observational (spec §6) and is
  dropped from the embedding.
-/

namespace Renota

/-- JavaScript `\s` / `trim` whitespace (the Unicode white-space set used by
JS regexes and `String.prototype.trim`). -/
def isWsJS (c : Char) : Bool :=
  c == ' ' || c == '\t' || c == '\n' || c == '\r' ||
  c.toNat == 0x0B || c.toNat == 0x0C || c.toNat == 0xA0 || c.toNat == 0x1680 ||
  (Nat.ble 0x2000 c.toNat && Nat.ble c.toNat 0x200A) ||
  c.toNat == 0x2028 || c.toNat == 0x2029 || c.toNat == 0x202F ||
  c.toNat == 0x205F || c.toNat == 0x3000 || c.toNat == 0xFEFF

/-- JavaScript `toUpperCase`, restricted to ASCII and the Latin-1 letter
block (covers every character the source's literals and regexes mention). -/
def jsToUpper (c : Char) : Char :=
  if 97 ≤ c.toNat ∧ c.toNat ≤ 122 then Char.ofNat (c.toNat - 32)
  else if 224 ≤ c.toNat ∧ c.toNat ≤ 254 ∧ c.toNat ≠ 247 then Char.ofNat (c.toNat - 32)
  else c

def jsToUpperStr (s : String) : String :=
  (s.data.map jsToUpper).asString

def jsTrimL (cs : List Char) : List Char :=
  ((cs.dropWhile isWsJS).reverse.dropWhile isWsJS).reverse

/-- JavaScript `String.prototype.trim`. -/
def jsTrim (s : String) : String :=
  (jsTrimL s.data).asString

/-- JavaScript `text.split('\n')`. -/
def splitOnNl : List Char → List (List Char)
  | [] => [[]]
  | '\n' :: rest => [] :: splitOnNl rest
  | c :: rest =>
    match splitOnNl rest with
    | l :: ls => (c :: l) :: ls
    | [] => [[c]]

/-- `text.split('\n').map(l => l.trim()).filter(l => l)` — shared by all
three parsers. -/
def splitLines (text : String) : List String :=
  ((splitOnNl text.data).map (fun cs => (jsTrimL cs).asString)).filter (fun l => l ≠ "")

/-- `needle` occurs as a contiguous sublist of `hay`. -/
def infixOfL (needle : List Char) : List Char → Bool
  | [] => needle.isPrefixOf []
  | c :: rest => needle.isPrefixOf (c :: rest) || infixOfL needle rest

/-- JavaScript `hay.includes(needle)`. -/
def strContains (hay needle : String) : Bool :=
  infixOfL needle.data hay.data

/-- JavaScript `s.replace(/\s+/g, '')`. -/
def stripWsAll (s : String) : String :=
  (s.data.filter (fun c => !isWsJS c)).asString

/-- Helper for `collapseWsL`: the flag records whether we are inside a
whitespace run whose single `' '` has already been emitted. -/
def collapseWsGo : Bool → List Char → List Char
  | _, [] => []
  | inWs, c :: rest =>
    if isWsJS c then
      if inWs then collapseWsGo true rest else ' ' :: collapseWsGo true rest
    else c :: collapseWsGo false rest

/-- JavaScript `s.replace(/\s+/g, ' ')`: collapse every whitespace run to a
single space. -/
def collapseWsL (cs : List Char) : List Char :=
  collapseWsGo false cs

/-- `pdfText.replace(/\s+/g, ' ').toUpperCase()` (non-Magalu matcher). -/
def normalizeSpace1 (s : String) : String :=
  ((collapseWsL s.data).map jsToUpper).asString

def normalizeStripL (cs : List Char) : List Char :=
  (cs.filter (fun c => !isWsJS c)).map jsToUpper

/-- `s.replace(/\s+/g, '').toUpperCase()` (Magalu matcher). -/
def normalizeStrip (s : String) : String :=
  (normalizeStripL s.data).asString

/-- Numeric value of a list of decimal digit characters (empty list = 0,
matching `parseFloat(".dd")` which treats the missing integer part as 0). -/
def natOfDigits (cs : List Char) : Nat :=
  cs.foldl (fun a c => a * 10 + (c.toNat - 48)) 0

/-- `parseFloat(valorText.replace(/\./g, '').replace(',', '.'))` for a
captured amount string `valorText` of shape `[\d.]+,\d{2}`, in cents.
The integer part keeps only its digits (grouping periods removed); the two
characters after the comma are the fractional digits. -/
def parseValorNum (v : String) : Nat :=
  let ip := v.data.takeWhile (fun c => c != ',')
  match v.data.dropWhile (fun c => c != ',') with
  | _ :: fp => natOfDigits (ip.filter Char.isDigit) * 100 + natOfDigits fp
  | [] => natOfDigits (ip.filter Char.isDigit) * 100

def pad2 (n : Nat) : String :=
  if n < 10 then "0" ++ toString n else toString n

/-- JavaScript `(cents/100).toFixed(2)`. -/
def toFixed2 (cents : Nat) : String :=
  toString (cents / 100) ++ "." ++ pad2 (cents % 100)

/-- JavaScript `Number.prototype.toString` on an exact 2-decimal value:
the shortest decimal representation drops trailing zero fractional digits. -/
def jsNumToString (cents : Nat) : String :=
  if cents % 100 = 0 then toString (cents / 100)
  else if cents % 10 = 0 then toString (cents / 100) ++ "." ++ toString ((cents % 100) / 10)
  else toFixed2 cents

/-- Group a reversed digit list in threes with `'.'` separators
(pt-BR thousands grouping). -/
def group3Rev : List Char → List Char
  | a :: b :: c :: d :: rest => a :: b :: c :: '.' :: group3Rev (d :: rest)
  | l => l

/-- JavaScript `(cents/100).toLocaleString('pt-BR', {minimumFractionDigits: 2,
maximumFractionDigits: 2})`: thousands grouped with periods, comma decimal
separator, two fractional digits. -/
def toLocalePtBR (cents : Nat) : String :=
  ((group3Rev (toString (cents / 100)).data.reverse).reverse).asString ++ "," ++ pad2 (cents % 100)

/-- JavaScript `s.replace('.', ',')` (string pattern: first occurrence only). -/
def replaceFirstDot (s : String) : String :=
  match s.data.span (fun c => c != '.') with
  | (a, _ :: b) => (a ++ ',' :: b).asString
  | (_, []) => s

/-- One row of the reference table (`TableRow` of `src/types`).  `valor` is
the amount in cents (see module comment); `nf` is `null`/absent ↦ `none`. -/
structure TableRow where
  nf : Option String
  valor : Nat
  valorFormatado : String
  descricao : String
  tipo : Option String
deriving DecidableEq

/-- The three classification accumulators (`descricoes`, `numeros`,
`valores`) that each parser builds while scanning lines; `valores` keeps the
captured text together with the parsed cents value. -/
structure Classified where
  descricoes : List String
  numeros : List String
  valores : List (String × Nat)
deriving DecidableEq

/-! ### Regex models for the line classifiers -/

/-- A token of the simple anchored patterns used below: either a character
class with a repetition range, or a (case-insensitive) literal. -/
inductive Tok where
  | cls (p : Char → Bool) (mn : Nat) (mx : Option Nat)
  | lit (s : String)

/-- Anchored match of a token sequence against a whole character list, with
backtracking over class repetition counts (exact regex semantics for
patterns whose classes are single-character). Literals compare
case-insensitively via `jsToUpper` (the patterns needing literals carry the
`i` flag in the source). -/
def matchToks : List Tok → List Char → Bool
  | [], cs => cs.isEmpty
  | Tok.lit l :: ts, cs =>
    if (l.data.map jsToUpper) = (cs.take l.data.length).map jsToUpper then
      matchToks ts (cs.drop l.data.length)
    else false
  | Tok.cls p mn mx :: ts, cs =>
    let mr := (cs.takeWhile p).length
    let hi := match mx with | none => mr | some m => min m mr
    (List.range (hi + 1)).any fun k => Nat.ble mn k && matchToks ts (cs.drop k)

def isWordChar (c : Char) : Bool :=
  c.isAlpha || c.isDigit || c == '_'

/-- `/^\d+\s+de\s+\w+\s*-?\s*\d*\s+de\s+\w+\s+de\s+\d{4}$/i` — the
"pure date range" filter of the Shopee parser. -/
def isJustDate (s : String) : Bool :=
  matchToks
    [Tok.cls Char.isDigit 1 none, Tok.cls isWsJS 1 none, Tok.lit "de",
     Tok.cls isWsJS 1 none, Tok.cls isWordChar 1 none, Tok.cls isWsJS 0 none,
     Tok.cls (fun c => c == '-') 0 (some 1), Tok.cls isWsJS 0 none,
     Tok.cls Char.isDigit 0 none, Tok.cls isWsJS 1 none, Tok.lit "de",
     Tok.cls isWsJS 1 none, Tok.cls isWordChar 1 none, Tok.cls isWsJS 1 none,
     Tok.lit "de", Tok.cls isWsJS 1 none, Tok.cls Char.isDigit 4 (some 4)]
    s.data

/-- `/^\d{7,9}$/` — a bare Shopee invoice number line. -/
def isDigits7to9 (s : String) : Bool :=
  s.data.all Char.isDigit && Nat.ble 7 s.data.length && Nat.ble s.data.length 9

def isDotDigit (c : Char) : Bool :=
  c.isDigit || c == '.'

/-- The captured group at the end of `^R?\$?\s*([\d.]+,\d{2})$`: a nonempty
run of digits/periods, a comma, exactly two digits. -/
def validValorGroup (cs : List Char) : Bool :=
  let run := cs.takeWhile isDotDigit
  decide (run ≠ []) &&
    match cs.drop run.length with
    | [',', a, b] => a.isDigit && b.isDigit
    | _ => false

/-- `line.match(/^R?\$?\s*([\d.]+,\d{2})$/)`, returning the captured group.
The leading options are deterministic because `R`, `$`, whitespace and the
group's first character are disjoint. -/
def valorAnchored (s : String) : Option String :=
  let cs1 := match s.data with | 'R' :: t => t | l => l
  let cs2 := match cs1 with | '$' :: t => t | l => l
  let cs3 := cs2.dropWhile isWsJS
  if validValorGroup cs3 then some cs3.asString else none

/-- One attempt of `/R?\$?\s*([\d.]+,\d{2})/i` at the head of `cs`
(Magalu's unanchored, case-insensitive amount pattern). -/
def magaluValorAt (cs : List Char) : Option String :=
  let cs1 := match cs with | c :: t => if jsToUpper c == 'R' then t else c :: t | [] => []
  let cs2 := match cs1 with | '$' :: t => t | l => l
  let cs3 := cs2.dropWhile isWsJS
  let run := cs3.takeWhile isDotDigit
  if run = [] then none
  else
    match cs3.drop run.length with
    | ',' :: a :: b :: _ => if a.isDigit && b.isDigit then some (run ++ [','] ++ [a, b]).asString else none
    | _ => none

/-- Leftmost match of `/R?\$?\s*([\d.]+,\d{2})/i`, returning the capture. -/
def magaluValorSearchL : List Char → Option String
  | [] => none
  | c :: rest => (magaluValorAt (c :: rest)).orElse (fun _ => magaluValorSearchL rest)

def magaluValorSearch (s : String) : Option String :=
  magaluValorSearchL s.data

/-- Does `\s+\d{7,9}\s*$` match starting exactly here (used for the
leftmost-match semantics of `descricao.replace(/\s+\d{7,9}\s*$/,'')`)? -/
def tailNfMatch (cs : List Char) : Bool :=
  matchToks
    [Tok.cls isWsJS 1 none, Tok.cls Char.isDigit 7 (some 9), Tok.cls isWsJS 0 none]
    cs

/-- `descricao.replace(/\s+\d{7,9}\s*$/, '')`: delete the leftmost (and, the
match reaching the end, only) occurrence. -/
def stripTrailingNfL (cs : List Char) : List Char :=
  match (List.range cs.length).find? (fun i => tailNfMatch (cs.drop i)) with
  | some i => cs.take i
  | none => cs

/-! ### The three parsers (`parseTableTextShopee`, `parseTableTextMercadoLivre`,
`parseTableTextMagalu`, `parseTableText`) -/

/-- `/^(NF-e|Número|Período de Serviço|Data de Emissão|Valor total)$/i`. -/
def isShopeeHeader (s : String) : Bool :=
  ["NF-E", "NÚMERO", "PERÍODO DE SERVIÇO", "DATA DE EMISSÃO", "VALOR TOTAL"].contains
    (jsToUpperStr s)

def strEndsWith (s suffix : String) : Bool :=
  suffix.data.isSuffixOf s.data

/-- The next-line tests guarding the Shopee continuation join. -/
def shopeeNextOk (next : String) : Bool :=
  !isDigits7to9 next && !(valorAnchored next).isSome && !isShopeeHeader next

/-- Description post-processing of the Shopee parser: trim, strip a trailing
7–9-digit number, trim again; keep if longer than 5 and not a pure date. -/
def shopeePushDesc (full : String) (c : Classified) : Classified :=
  let d := (jsTrimL (stripTrailingNfL (jsTrimL full.data))).asString
  if Nat.ble 6 d.data.length && !isJustDate d then
    ⟨d :: c.descricoes, c.numeros, c.valores⟩
  else c

/-- The classification loop of `parseTableTextShopee` (lines 144–190 of the
source), including the continuation join that consumes the following line.
Fuel-based so the kernel can evaluate it; each step consumes at least one
line, so fuel equal to the number of lines always suffices. -/
def classifyShopeeGo : Nat → List String → Classified
  | 0, _ => ⟨[], [], []⟩
  | _, [] => ⟨[], [], []⟩
  | fuel + 1, line :: rest =>
    if isShopeeHeader line then classifyShopeeGo fuel rest
    else if isDigits7to9 line then
      let c := classifyShopeeGo fuel rest
      ⟨c.descricoes, line :: c.numeros, c.valores⟩
    else
      match valorAnchored line with
      | some v =>
        let c := classifyShopeeGo fuel rest
        ⟨c.descricoes, c.numeros, (v, parseValorNum v) :: c.valores⟩
      | none =>
        if line.data.contains '-' then
          match rest with
          | next :: rest2 =>
            if (strEndsWith line "-" || strEndsWith line "- ") && shopeeNextOk (jsTrim next) then
              shopeePushDesc (line ++ " " ++ jsTrim next) (classifyShopeeGo fuel rest2)
            else
              shopeePushDesc line (classifyShopeeGo fuel (next :: rest2))
          | [] => shopeePushDesc line (classifyShopeeGo fuel [])
        else classifyShopeeGo fuel rest

def classifyShopee (lines : List String) : Classified :=
  classifyShopeeGo lines.length lines

/-- Positional pairing of the collected lists: `min(numeros, valores)`
records, the i-th description falling back to `'Serviço'`. -/
def buildRecordsAux (d : List String) : Nat → List String → List (String × Nat) → List TableRow
  | _, [], _ => []
  | _, _ :: _, [] => []
  | i, n :: ns, v :: vs =>
    { nf := some n, valor := v.2, valorFormatado := v.1,
      descricao := d.getD i "Serviço", tipo := none } :: buildRecordsAux d (i + 1) ns vs

def buildRecords (d : List String) (ns : List String) (vs : List (String × Nat)) : List TableRow :=
  buildRecordsAux d 0 ns vs

def parseTableTextShopee (text : String) : List TableRow :=
  let c := classifyShopee (splitLines text)
  if c.numeros = [] ∨ c.valores = [] then []
  else buildRecords c.descricoes c.numeros c.valores

/-- `/^(Conceito de faturamento|Município|Número da NF-e|Total da fatura)$/i`. -/
def isMLHeader (s : String) : Bool :=
  ["CONCEITO DE FATURAMENTO", "MUNICÍPIO", "NÚMERO DA NF-E", "TOTAL DA FATURA"].contains
    (jsToUpperStr s)

/-- `/^(Curitiba|Osasco|São Paulo|Rio de Janeiro|Belo Horizonte|Governador Celso Ramos|Lauro de Freitas)$/i`. -/
def isMunicipio (s : String) : Bool :=
  ["CURITIBA", "OSASCO", "SÃO PAULO", "RIO DE JANEIRO", "BELO HORIZONTE",
   "GOVERNADOR CELSO RAMOS", "LAURO DE FREITAS"].contains (jsToUpperStr s)

/-- `/^\d+$/`. -/
def isAllDigits (s : String) : Bool :=
  decide (s.data ≠ []) && s.data.all Char.isDigit

/-- `/^0+\d+$/` — a zero-padded Mercado Livre invoice number line. -/
def isZeroPaddedNum (s : String) : Bool :=
  Nat.ble 2 s.data.length && s.data.all Char.isDigit && (s.data.head? == some '0')

/-- The classification loop of `parseTableTextMercadoLivre` (lines 225–259):
identifiers are zero-padded numbers with the leading-zero run stripped. -/
def classifyML : List String → Classified
  | [] => ⟨[], [], []⟩
  | line :: rest =>
    if isMLHeader line then classifyML rest
    else if isZeroPaddedNum line then
      let c := classifyML rest
      ⟨c.descricoes, (line.data.dropWhile (fun c => c == '0')).asString :: c.numeros, c.valores⟩
    else
      match valorAnchored line with
      | some v =>
        let c := classifyML rest
        ⟨c.descricoes, c.numeros, (v, parseValorNum v) :: c.valores⟩
      | none =>
        if !isAllDigits line && !(valorAnchored line).isSome && !isMunicipio line &&
           !isMLHeader line && Nat.ble 4 line.data.length then
          let c := classifyML rest
          ⟨line :: c.descricoes, c.numeros, c.valores⟩
        else classifyML rest

def parseTableTextMercadoLivre (text : String) : List TableRow :=
  let c := classifyML (splitLines text)
  if c.numeros = [] ∨ c.valores = [] then []
  else buildRecords c.descricoes c.numeros c.valores

/-- `/^(Serviço prestado|Valor)/i` — prefix, not full-line, match. -/
def isMagaluHeader (s : String) : Bool :=
  ("Serviço prestado".data.map jsToUpper).isPrefixOf (s.data.map jsToUpper) ||
  ("Valor".data.map jsToUpper).isPrefixOf (s.data.map jsToUpper)

def ornamentChars : List Char := ['●', '•', '◆', '○', 'J', '®', '©']

/-- `line.replace(/[●•◆○J®©]/g, '')`. -/
def removeOrnaments (s : String) : String :=
  (s.data.filter (fun c => !ornamentChars.contains c)).asString

/-- The description branch of the Magalu parser (lines 312–322). -/
def magaluDescStep (line : String) (c : Classified) : Classified :=
  if !isAllDigits line && !(magaluValorSearch line).isSome && !isMagaluHeader line &&
     Nat.ble 3 line.data.length then
    let clean := jsTrim (removeOrnaments line)
    if Nat.ble 3 clean.data.length then ⟨clean :: c.descricoes, c.numeros, c.valores⟩ else c
  else c

/-- The classification loop of `parseTableTextMagalu` (lines 293–323): a
loosely-matched amount is kept only when positive; otherwise the line falls
through to the description tests. -/
def classifyMagalu : List String → Classified
  | [] => ⟨[], [], []⟩
  | line :: rest =>
    if isMagaluHeader line then classifyMagalu rest
    else
      match magaluValorSearch line with
      | some v =>
        if 0 < parseValorNum v then
          let c := classifyMagalu rest
          ⟨c.descricoes, c.numeros, (v, parseValorNum v) :: c.valores⟩
        else magaluDescStep line (classifyMagalu rest)
      | none => magaluDescStep line (classifyMagalu rest)

def buildRecordsMagaluAux (d : List String) : Nat → List (String × Nat) → List TableRow
  | _, [] => []
  | i, v :: vs =>
    { nf := none, valor := v.2, valorFormatado := v.1,
      descricao := d.getD i "Serviço", tipo := none } :: buildRecordsMagaluAux d (i + 1) vs

def parseTableTextMagalu (text : String) : List TableRow :=
  let c := classifyMagalu (splitLines text)
  if c.valores = [] then []
  else buildRecordsMagaluAux c.descricoes 0 c.valores

/-- `parseTableText` dispatch (lines 349–360): unknown marketplaces yield an
empty record list. -/
def parseTableText (text : String) (marketplace : String) : List TableRow :=
  if marketplace = "Shopee" then parseTableTextShopee text
  else if marketplace = "Mercado Livre" then parseTableTextMercadoLivre text
  else if marketplace = "Magalu" then parseTableTextMagalu text
  else []

/-! ### Invoice-info extractor (`extractNFInfoFromPDF`, lines 107–132) -/

/-- Case-insensitive literal consumption (the label part of the number
patterns, all carrying the `i` flag). -/
def dropLitCI : List Char → List Char → Option (List Char)
  | [], cs => some cs
  | _ :: _, [] => none
  | a :: l, c :: cs => if jsToUpper a == jsToUpper c then dropLitCI l cs else none

/-- Label of `/N[ºo]\.?\s*da Nota/i`. -/
def patNAbbrev (cs : List Char) : Option (List Char) :=
  match cs with
  | c :: d :: rest =>
    if jsToUpper c == 'N' && (jsToUpper d == 'º' || jsToUpper d == 'O') then
      let r := match rest with | '.' :: t => t | l => l
      dropLitCI "da Nota".data (r.dropWhile isWsJS)
    else none
  | _ => none

/-- After a successful label match: consume `[\s:]*` then a greedy digit run,
of length at least `minD` (`\d+` resp. `\d{4,}`), and capture it. -/
def labelCapture (label : List Char → Option (List Char)) (minD : Nat) (cs : List Char) :
    Option String :=
  match label cs with
  | some rest =>
    let rest2 := rest.dropWhile (fun c => isWsJS c || c == ':')
    let ds := rest2.takeWhile Char.isDigit
    if Nat.ble minD ds.length then some ds.asString else none
  | none => none

/-- Leftmost match of a label-anchored number pattern over the whole text. -/
def searchPat (label : List Char → Option (List Char)) (minD : Nat) : List Char → Option String
  | [] => labelCapture label minD []
  | c :: rest => (labelCapture label minD (c :: rest)).orElse (fun _ => searchPat label minD rest)

/-- The fixed priority list of number patterns (source lines 114–120):
`Número da Nota`, `Número Nota Fiscal`, `Nº da Nota`, `N[ºo]\.? da Nota`,
and the last-resort `Nota` followed by 4 or more digits. -/
def nfPatterns : List (List Char → Option String) :=
  [searchPat (dropLitCI "Número da Nota".data) 1,
   searchPat (dropLitCI "Número Nota Fiscal".data) 1,
   searchPat (dropLitCI "Nº da Nota".data) 1,
   searchPat patNAbbrev 1,
   searchPat (dropLitCI "Nota".data) 4]

structure NFInfo where
  nf : Option String
  tipo : String
deriving DecidableEq

def extractNFInfoFromPDF (pdfText : String) : NFInfo :=
  let up := jsToUpperStr pdfText
  let tipo :=
    if strContains up "NOTA DE DÉBITO" || strContains up "NOTA DE DEBITO" then "ND" else "NFS"
  { nf := nfPatterns.findSome? (fun p => p pdfText.data), tipo := tipo }

/-! ### Matchers (`findMatchingRowMagalu`, `findMatchingRow`, lines 362–503) -/

def magaluInteiro (row : TableRow) : String := toString (row.valor / 100)

def magaluDec2 (row : TableRow) : String := pad2 (row.valor % 100)

/-- `parseInt(decimal)` rendered back: drops a leading zero of the two-digit
fraction. -/
def magaluDec1 (row : TableRow) : String := toString (row.valor % 100)

/-- The 13 candidate strings of `findMatchingRowMagalu` (lines 371–385), in
source order. -/
def magaluValorFormats (row : TableRow) : List String :=
  ["R$" ++ magaluInteiro row ++ "," ++ magaluDec2 row,
   "R$ " ++ magaluInteiro row ++ "," ++ magaluDec2 row,
   "R$" ++ magaluInteiro row ++ "," ++ magaluDec1 row,
   "R$ " ++ magaluInteiro row ++ "," ++ magaluDec1 row,
   "R$" ++ magaluInteiro row ++ "." ++ magaluDec2 row,
   "R$ " ++ magaluInteiro row ++ "." ++ magaluDec2 row,
   "R$" ++ magaluInteiro row ++ "." ++ magaluDec1 row,
   "R$ " ++ magaluInteiro row ++ "." ++ magaluDec1 row,
   magaluInteiro row ++ "," ++ magaluDec2 row,
   magaluInteiro row ++ "," ++ magaluDec1 row,
   magaluInteiro row ++ "." ++ magaluDec2 row,
   magaluInteiro row ++ "." ++ magaluDec1 row,
   row.valorFormatado]

/-- The matched row with `nf`/`tipo` filled in from the PDF text
(`{...row, nf: nfInfo.nf || 'XXXX', tipo: nfInfo.tipo}`, a fresh object). -/
def magaluUpdate (pdfText : String) (row : TableRow) : TableRow :=
  let info := extractNFInfoFromPDF pdfText
  { row with nf := some (info.nf.getD "XXXX"), tipo := some info.tipo }

def magaluRowFound (npdf : String) (row : TableRow) : Bool :=
  (magaluValorFormats row).any (fun f => strContains npdf (normalizeStrip f))

def findMatchingRowMagalu (pdfText : String) (tableData : List TableRow) : Option TableRow :=
  (tableData.find? (magaluRowFound (normalizeStrip pdfText))).map (magaluUpdate pdfText)

/-- `fileName.match(/\d{7,9}/g)`: the greedy left-to-right scan emitting
non-overlapping digit groups of 7 to 9 digits (a position with fewer than 7
digits ahead is skipped; a longer run yields its 9-digit prefix and the scan
resumes after it). -/
def extractDigitGroupsGo : Nat → List Char → List String
  | 0, _ => []
  | _, [] => []
  | fuel + 1, c :: rest =>
    if 7 ≤ ((c :: rest).takeWhile Char.isDigit).length then
      (((c :: rest).takeWhile Char.isDigit).take 9).asString ::
        extractDigitGroupsGo fuel ((c :: rest).drop (min 9 ((c :: rest).takeWhile Char.isDigit).length))
    else extractDigitGroupsGo fuel rest

/-- Each scan step consumes at least one character, so fuel equal to the
length of the list always suffices. -/
def extractDigitGroupsL (cs : List Char) : List String :=
  extractDigitGroupsGo cs.length cs

def extractDigitGroups (fileName : String) : List String :=
  extractDigitGroupsL fileName.data

/-- Strategy 1 (lines 425–434): first filename digit group whose value equals
some record's identifier; first such record wins. -/
def matchByFileName (fileName : String) (tableData : List TableRow) : Option TableRow :=
  (extractDigitGroups fileName).findSome? (fun g => tableData.find? (fun row => row.nf == some g))

/-- JavaScript truthiness of `row.nf` (`null` and `''` are falsy). -/
def nfTruthy (row : TableRow) : Bool :=
  row.nf.getD "" != ""

def nfString (row : TableRow) : String := row.nf.getD ""

/-- The five amount renderings tested by strategies 2 and 3 (lines 441–447
and 469–475), in source order. -/
def valorFormats5 (row : TableRow) : List String :=
  [row.valorFormatado,
   replaceFirstDot (toFixed2 row.valor),
   toLocalePtBR row.valor,
   replaceFirstDot (jsNumToString row.valor),
   toFixed2 row.valor]

/-- Some rendering of the record's amount, whitespace-stripped, occurs in the
normalized PDF text. -/
def valorFoundIn (npdf : String) (row : TableRow) : Bool :=
  (valorFormats5 row).any (fun f => strContains npdf (stripWsAll f))

/-- Strategy 2 (lines 436–466): identifier (truthy, present in the text)
plus amount. -/
def matchByNfValor (npdf : String) (tableData : List TableRow) : Option TableRow :=
  tableData.find? (fun row => nfTruthy row && strContains npdf (nfString row) && valorFoundIn npdf row)

/-- Strategy 3 (lines 468–493): amount only. -/
def matchByValor (npdf : String) (tableData : List TableRow) : Option TableRow :=
  tableData.find? (valorFoundIn npdf)

/-- Strategy 4 (lines 495–500): truthy identifier present in the text. -/
def matchByNf (npdf : String) (tableData : List TableRow) : Option TableRow :=
  tableData.find? (fun row => nfTruthy row && strContains npdf (nfString row))

/-- `findMatchingRow` (lines 418–503): Magalu dispatch, else the cascade of
the four strategies, first success wins. -/
def findMatchingRow (pdfText : String) (tableData : List TableRow)
    (fileName : String) (marketplace : String) : Option TableRow :=
  if marketplace = "Magalu" then findMatchingRowMagalu pdfText tableData
  else
    (matchByFileName fileName tableData).orElse (fun _ =>
      (matchByNfValor (normalizeSpace1 pdfText) tableData).orElse (fun _ =>
        (matchByValor (normalizeSpace1 pdfText) tableData).orElse (fun _ =>
          matchByNf (normalizeSpace1 pdfText) tableData)))

/-! ### Generic helper lemmas -/

theorem orElse_none_eval {α : Type} (f : Unit → Option α) : Option.orElse none f = f () := rfl

theorem orElse_some_eval {α : Type} (a : α) (f : Unit → Option α) :
    Option.orElse (some a) f = some a := rfl

theorem orElse_eq_some_cases {α : Type} (a : Option α) (f : Unit → Option α) (r : α)
    (h : Option.orElse a f = some r) : a = some r ∨ (a = none ∧ f () = some r) := by
  cases a with
  | none => exact Or.inr ⟨rfl, h⟩
  | some x => exact Or.inl h

theorem find?_congr_pred {α : Type} (p q : α → Bool) (h : ∀ a, p a = q a) :
    ∀ l : List α, l.find? p = l.find? q := by
  intro l
  induction l with
  | nil => rfl
  | cons a l ih =>
    rw [List.find?_cons, List.find?_cons, h a]
    cases q a
    · exact ih
    · rfl

theorem takeWhile_until_comma (fp : List Char) :
    ∀ ip : List Char, ',' ∉ ip →
      (ip ++ ',' :: fp).takeWhile (fun c => c != ',') = ip := by
  intro ip
  induction ip with
  | nil => intro _; simp [List.takeWhile]
  | cons c l ih =>
    intro h
    have hc : (c != ',') = true := by
      simp only [List.mem_cons, not_or] at h
      exact bne_iff_ne.mpr (fun hx => h.1 hx.symm)
    simp only [List.cons_append, List.takeWhile_cons, hc, if_true]
    rw [ih (fun hm => h (List.mem_cons_of_mem c hm))]

theorem dropWhile_until_comma (fp : List Char) :
    ∀ ip : List Char, ',' ∉ ip →
      (ip ++ ',' :: fp).dropWhile (fun c => c != ',') = ',' :: fp := by
  intro ip
  induction ip with
  | nil => intro _; simp [List.dropWhile]
  | cons c l ih =>
    intro h
    have hc : (c != ',') = true := by
      simp only [List.mem_cons, not_or] at h
      exact bne_iff_ne.mpr (fun hx => h.1 hx.symm)
    simp only [List.cons_append, List.dropWhile_cons, hc, if_true]
    exact ih (fun hm => h (List.mem_cons_of_mem c hm))

theorem filter_digit_after_dots (ip : List Char) :
    (ip.filter (fun c => c != '.')).filter Char.isDigit = ip.filter Char.isDigit := by
  induction ip with
  | nil => rfl
  | cons c l ih =>
    by_cases hc : c = '.'
    · subst hc
      have h1 : (('.' : Char) != '.') = false := by decide
      have h2 : ('.' : Char).isDigit = false := by decide
      simp [List.filter_cons, h1, h2, ih]
    · have h1 : (c != '.') = true := by simp [hc]
      simp only [List.filter_cons, h1, if_true]
      cases h2 : c.isDigit <;> simp [List.filter_cons, h2, ih]

/-! ### Lemmas about the positional pairing -/

theorem buildRecordsAux_length (d : List String) :
    ∀ (ns : List String) (vs : List (String × Nat)) (i : Nat),
      (buildRecordsAux d i ns vs).length = min ns.length vs.length := by
  intro ns
  induction ns with
  | nil => intro vs i; cases vs <;> simp [buildRecordsAux]
  | cons n ns ih =>
    intro vs i
    cases vs with
    | nil => simp [buildRecordsAux]
    | cons v vs =>
      simp only [buildRecordsAux, List.length_cons, ih]
      omega

theorem buildRecordsAux_get? (d : List String) :
    ∀ (ns : List String) (vs : List (String × Nat)) (i k : Nat) (n : String) (v : String × Nat),
      ns.get? k = some n → vs.get? k = some v →
      (buildRecordsAux d i ns vs).get? k =
        some ⟨some n, v.2, v.1, d.getD (i + k) "Serviço", none⟩ := by
  intro ns
  induction ns with
  | nil => intro vs i k n v hn; simp at hn
  | cons a ns ih =>
    intro vs i k n v hn hv
    cases vs with
    | nil => simp at hv
    | cons b vs =>
      cases k with
      | zero =>
        rw [List.get?_cons_zero] at hn hv
        cases hn; cases hv
        simp [buildRecordsAux, List.get?_cons_zero]
      | succ k =>
        rw [List.get?_cons_succ] at hn hv
        have := ih vs (i + 1) k n v hn hv
        simp only [buildRecordsAux, List.get?_cons_succ]
        rw [this]
        have harith : i + 1 + k = i + (k + 1) := by omega
        rw [harith]

theorem buildRecordsAux_ne_nil (d : List String) (i : Nat) (n : String) (ns : List String)
    (v : String × Nat) (vs : List (String × Nat)) :
    buildRecordsAux d i (n :: ns) (v :: vs) ≠ [] := by
  simp [buildRecordsAux]

/-! ### C10 -/

/-- C10: for every input text and every marketplace other than `Shopee`,
`Mercado Livre` and `Magalu`, `parseTableText` returns the empty record list
(and, being a total function, never throws). -/
theorem parseTableText_unknown_empty (text marketplace : String)
    (h1 : marketplace ≠ "Shopee") (h2 : marketplace ≠ "Mercado Livre")
    (h3 : marketplace ≠ "Magalu") :
    parseTableText text marketplace = [] := by
  simp [parseTableText, h1, h2, h3]

theorem parseTableText_unknown_empty_witness :
    parseTableText "1234567" "Amazon" = [] :=
  parseTableText_unknown_empty "1234567" "Amazon" (by decide) (by decide) (by decide)

/-! ### C1 -/

/-- Claim-side predicate, following the claim's words literally: the
filename contains a 7-to-9-digit substring exactly equal to `nf`
(equivalently: `nf` is itself 7–9 digits and a substring of the filename). -/
def filenameHasIdSubstring (fileName nf : String) : Bool :=
  Nat.ble 7 nf.data.length && Nat.ble nf.data.length 9 && nf.data.all Char.isDigit &&
    strContains fileName nf

/-- C1 counterexample: the filename `12345678.pdf` contains the 7-digit
substring `1234567`, equal to the sole record's identifier, yet
`findMatchingRow` returns `none` (the greedy `/\d{7,9}/g` scan extracts only
the group `12345678`, which matches no record, and the empty PDF text defeats
the remaining strategies). -/
theorem filename_substring_counterexample :
    filenameHasIdSubstring "12345678.pdf" "1234567" = true ∧
    findMatchingRow "" [⟨some "1234567", 15000, "150,00", "Serviço de frete", none⟩]
      "12345678.pdf" "Shopee" = none := by
  exact ⟨by decide, by decide⟩

/-- C1 (amended): for the non-Magalu matcher, the filename strategy is
evaluated before all other strategies: whenever the greedy left-to-right scan
extracting non-overlapping 7–9-digit groups from the filename yields a group
equal to some record's identifier, `findMatchingRow` returns the first such
record (groups taken in order of appearance), whatever the PDF text holds. -/
theorem filename_groups_win (pdfText fileName marketplace : String)
    (rows : List TableRow) (r : TableRow)
    (hmp : marketplace ≠ "Magalu")
    (h : matchByFileName fileName rows = some r) :
    findMatchingRow pdfText rows fileName marketplace = some r := by
  simp only [findMatchingRow, if_neg hmp, h, orElse_some_eval]

/-- The spec's cascade-ordering scenario: the PDF text holds the first
record's identifier and amount, but the filename group `2222222` picks the
second record. -/
theorem filename_groups_win_witness :
    findMatchingRow "1111111 100,00"
      [⟨some "1111111", 10000, "100,00", "a", none⟩,
       ⟨some "2222222", 20000, "200,00", "b", none⟩]
      "2222222.pdf" "Shopee" = some ⟨some "2222222", 20000, "200,00", "b", none⟩ :=
  filename_groups_win "1111111 100,00" "2222222.pdf" "Shopee" _ _ (by decide) (by decide)

/-! ### C4 -/

/-- `s.replace(/\./g, '')`. -/
def removeDots (s : String) : String :=
  (s.data.filter (fun c => c != '.')).asString

/-- C4: amount parsing is invariant under removing the grouping periods of
the integer part; in particular `"1.234,56"` and `"1234,56"` parse to the
same value, namely 1234.56 (123456 cents). -/
theorem parse_amount_grouping_invariant (ip fp : List Char)
    (h1 : ',' ∉ ip) (h2 : '.' ∉ fp) :
    parseValorNum (removeDots (ip ++ ',' :: fp).asString) =
      parseValorNum (ip ++ ',' :: fp).asString ∧
    parseValorNum "1.234,56" = parseValorNum "1234,56" ∧
    (parseValorNum "1.234,56" : ℚ) / 100 = 1234.56 := by
  have hval : parseValorNum "1.234,56" = 123456 := by decide
  refine ⟨?_, by decide, by rw [hval]; norm_num⟩
  have hfp : fp.filter (fun c => c != '.') = fp := by
    rw [List.filter_eq_self]
    intro a ha
    have hne : a ≠ '.' := fun hc => h2 (hc ▸ ha)
    simp [hne]
  have hip : ',' ∉ ip.filter (fun c => c != '.') := by
    intro hm
    exact h1 (List.mem_of_mem_filter hm)
  have e1 : (ip ++ ',' :: fp).asString.data = ip ++ ',' :: fp := rfl
  have e2 : (removeDots (ip ++ ',' :: fp).asString).data =
      ip.filter (fun c => c != '.') ++ ',' :: fp := by
    show ((ip ++ ',' :: fp).asString.data.filter (fun c => c != '.')) = _
    rw [e1, List.filter_append, List.filter_cons]
    have hc : ((',' : Char) != '.') = true := by decide
    simp only [hc, if_true, hfp]
  simp only [parseValorNum, e1, e2]
  rw [takeWhile_until_comma fp _ hip, dropWhile_until_comma fp _ hip,
    takeWhile_until_comma fp _ h1, dropWhile_until_comma fp _ h1,
    filter_digit_after_dots]

theorem parse_amount_grouping_invariant_witness :
    parseValorNum (removeDots ("1.234".data ++ ',' :: "56".data).asString) =
      parseValorNum ("1.234".data ++ ',' :: "56".data).asString :=
  (parse_amount_grouping_invariant "1.234".data "56".data (by decide) (by decide)).1

/-! ### C2 -/

/-- C2: for Variants A and B (Shopee, Mercado Livre), when both the
classified identifier list and amount list are non-empty, the parser returns
exactly `min` of the two lengths records, the k-th record pairing the k-th
identifier with the k-th captured amount (text and parsed value) and the
k-th description, falling back to `'Serviço'` when the description list is
shorter. -/
theorem parse_positional_pairing (text : String) :
    ((classifyShopee (splitLines text)).numeros ≠ [] →
     (classifyShopee (splitLines text)).valores ≠ [] →
     (parseTableTextShopee text).length =
        min (classifyShopee (splitLines text)).numeros.length
            (classifyShopee (splitLines text)).valores.length ∧
     ∀ k n v, (classifyShopee (splitLines text)).numeros.get? k = some n →
              (classifyShopee (splitLines text)).valores.get? k = some v →
       (parseTableTextShopee text).get? k =
         some ⟨some n, v.2, v.1,
               (classifyShopee (splitLines text)).descricoes.getD k "Serviço", none⟩) ∧
    ((classifyML (splitLines text)).numeros ≠ [] →
     (classifyML (splitLines text)).valores ≠ [] →
     (parseTableTextMercadoLivre text).length =
        min (classifyML (splitLines text)).numeros.length
            (classifyML (splitLines text)).valores.length ∧
     ∀ k n v, (classifyML (splitLines text)).numeros.get? k = some n →
              (classifyML (splitLines text)).valores.get? k = some v →
       (parseTableTextMercadoLivre text).get? k =
         some ⟨some n, v.2, v.1,
               (classifyML (splitLines text)).descricoes.getD k "Serviço", none⟩) := by
  constructor
  · intro hn hv
    have hcond : ¬((classifyShopee (splitLines text)).numeros = [] ∨
        (classifyShopee (splitLines text)).valores = []) := not_or.mpr ⟨hn, hv⟩
    have hpar : parseTableTextShopee text =
        buildRecordsAux (classifyShopee (splitLines text)).descricoes 0
          (classifyShopee (splitLines text)).numeros
          (classifyShopee (splitLines text)).valores := by
      simp only [parseTableTextShopee, buildRecords]
      rw [if_neg hcond]
    constructor
    · rw [hpar]
      exact buildRecordsAux_length _ _ _ 0
    · intro k n v hkn hkv
      rw [hpar]
      have h := buildRecordsAux_get? (classifyShopee (splitLines text)).descricoes
        (classifyShopee (splitLines text)).numeros (classifyShopee (splitLines text)).valores
        0 k n v hkn hkv
      rwa [Nat.zero_add] at h
  · intro hn hv
    have hcond : ¬((classifyML (splitLines text)).numeros = [] ∨
        (classifyML (splitLines text)).valores = []) := not_or.mpr ⟨hn, hv⟩
    have hpar : parseTableTextMercadoLivre text =
        buildRecordsAux (classifyML (splitLines text)).descricoes 0
          (classifyML (splitLines text)).numeros
          (classifyML (splitLines text)).valores := by
      simp only [parseTableTextMercadoLivre, buildRecords]
      rw [if_neg hcond]
    constructor
    · rw [hpar]
      exact buildRecordsAux_length _ _ _ 0
    · intro k n v hkn hkv
      rw [hpar]
      have h := buildRecordsAux_get? (classifyML (splitLines text)).descricoes
        (classifyML (splitLines text)).numeros (classifyML (splitLines text)).valores
        0 k n v hkn hkv
      rwa [Nat.zero_add] at h

/-- Three Shopee identifiers and two amounts yield exactly two records,
paired in order. -/
theorem parse_positional_pairing_witness :
    (parseTableTextShopee "1111111\n2222222\n3333333\n10,00\n20,00").length = 2 ∧
    (parseTableTextShopee "1111111\n2222222\n3333333\n10,00\n20,00").get? 0 =
      some ⟨some "1111111", 1000, "10,00", "Serviço", none⟩ ∧
    (parseTableTextShopee "1111111\n2222222\n3333333\n10,00\n20,00").get? 1 =
      some ⟨some "2222222", 2000, "20,00", "Serviço", none⟩ := by
  have h := (parse_positional_pairing "1111111\n2222222\n3333333\n10,00\n20,00").1
    (by decide) (by decide)
  refine ⟨h.1.trans (by decide), ?_, ?_⟩
  · exact h.2 0 "1111111" ("10,00", 1000) (by decide) (by decide)
  · exact h.2 1 "2222222" ("20,00", 2000) (by decide) (by decide)

/-! ### C3 -/

/-- C3: the parsers are total functions (the embedding never raises); each
variant returns the empty record list exactly when, after line
classification, the identifier list (Shopee, Mercado Livre) or the amount
list (all variants) is empty; otherwise it returns a non-empty record list
built by positional pairing. -/
theorem parser_empty_iff (text : String) :
    (parseTableTextShopee text = [] ↔
      ((classifyShopee (splitLines text)).numeros = [] ∨
       (classifyShopee (splitLines text)).valores = [])) ∧
    (parseTableTextMercadoLivre text = [] ↔
      ((classifyML (splitLines text)).numeros = [] ∨
       (classifyML (splitLines text)).valores = [])) ∧
    (parseTableTextMagalu text = [] ↔ (classifyMagalu (splitLines text)).valores = []) := by
  refine ⟨?_, ?_, ?_⟩
  · by_cases hcond : (classifyShopee (splitLines text)).numeros = [] ∨
        (classifyShopee (splitLines text)).valores = []
    · simp [parseTableTextShopee, hcond]
    · simp only [parseTableTextShopee, buildRecords]
      rw [if_neg hcond]
      rw [not_or] at hcond
      obtain ⟨n, ns, hns⟩ := List.exists_cons_of_ne_nil hcond.1
      obtain ⟨v, vs, hvs⟩ := List.exists_cons_of_ne_nil hcond.2
      rw [hns, hvs]
      simp [buildRecordsAux]
  · by_cases hcond : (classifyML (splitLines text)).numeros = [] ∨
        (classifyML (splitLines text)).valores = []
    · simp [parseTableTextMercadoLivre, hcond]
    · simp only [parseTableTextMercadoLivre, buildRecords]
      rw [if_neg hcond]
      rw [not_or] at hcond
      obtain ⟨n, ns, hns⟩ := List.exists_cons_of_ne_nil hcond.1
      obtain ⟨v, vs, hvs⟩ := List.exists_cons_of_ne_nil hcond.2
      rw [hns, hvs]
      simp [buildRecordsAux]
  · by_cases hcond : (classifyMagalu (splitLines text)).valores = []
    · simp [parseTableTextMagalu, hcond]
    · simp only [parseTableTextMagalu]
      rw [if_neg hcond]
      obtain ⟨v, vs, hvs⟩ := List.exists_cons_of_ne_nil hcond
      rw [hvs]
      simp [buildRecordsMagaluAux]

/-! ### C5 -/

/-- Candidate set as the spec words it: the 8 combinations of
currency-prefixed/unprefixed × comma/period decimal separator ×
single-vs-two-decimal-digit rendering, plus the originally captured display
string. -/
def specMagaluCandidates (row : TableRow) : List String :=
  ["R$" ++ magaluInteiro row ++ "," ++ magaluDec2 row,
   "R$" ++ magaluInteiro row ++ "," ++ magaluDec1 row,
   "R$" ++ magaluInteiro row ++ "." ++ magaluDec2 row,
   "R$" ++ magaluInteiro row ++ "." ++ magaluDec1 row,
   magaluInteiro row ++ "," ++ magaluDec2 row,
   magaluInteiro row ++ "," ++ magaluDec1 row,
   magaluInteiro row ++ "." ++ magaluDec2 row,
   magaluInteiro row ++ "." ++ magaluDec1 row,
   row.valorFormatado]

/-- After whitespace stripping, the `R$`-with-space candidate equals the
`R$`-without-space one. -/
theorem normalizeStrip_rs (t u v : String) :
    normalizeStrip ("R$ " ++ t ++ u ++ v) = normalizeStrip ("R$" ++ t ++ u ++ v) := rfl

theorem orCollapse : ∀ a b c d e f g h i : Bool,
    (a || (a || (b || (b || (c || (c || (d || (d || (e || (f || (g || (h || i)))))))))))) =
    (a || (b || (c || (d || (e || (f || (g || (h || i)))))))) := by decide

/-- The source's 13 literal candidates and the spec's 9 candidates agree once
both are whitespace-stripped and upper-cased. -/
theorem magaluRowFound_eq_spec (npdf : String) (row : TableRow) :
    magaluRowFound npdf row =
      (specMagaluCandidates row).any (fun f => strContains npdf (normalizeStrip f)) := by
  simp only [magaluRowFound, magaluValorFormats, specMagaluCandidates,
    List.any_cons, List.any_nil, Bool.or_false]
  rw [normalizeStrip_rs (magaluInteiro row) "," (magaluDec2 row),
      normalizeStrip_rs (magaluInteiro row) "," (magaluDec1 row),
      normalizeStrip_rs (magaluInteiro row) "." (magaluDec2 row),
      normalizeStrip_rs (magaluInteiro row) "." (magaluDec1 row)]
  exact orCollapse _ _ _ _ _ _ _ _ _

/-- C5: the Magalu matcher behaves exactly as the matcher that tests, for
each record in original order, the spec's candidate set (the 8
prefix/separator/decimal-digit combinations plus the captured display
string), comparing each candidate whitespace-stripped and upper-cased
against the whitespace-stripped upper-cased PDF text, and returns the first
record with a hit, with identifier and document type filled in from the PDF
text. -/
theorem magalu_candidates_spec (pdfText : String) (tableData : List TableRow) :
    findMatchingRowMagalu pdfText tableData =
      (tableData.find? (fun row => (specMagaluCandidates row).any
        (fun c => strContains (normalizeStrip pdfText) (normalizeStrip c)))).map
        (magaluUpdate pdfText) := by
  simp only [findMatchingRowMagalu]
  rw [find?_congr_pred _ _ (fun row => magaluRowFound_eq_spec (normalizeStrip pdfText) row)
    tableData]

/-! ### C6 -/

/-- C6: `extractNFInfoFromPDF` returns document type `'ND'` iff the
upper-cased text contains the accented or unaccented spelling of
`NOTA DE DÉBITO`, and `'NFS'` otherwise; the identifier is the result of the
first matching pattern of the fixed priority list `nfPatterns` (whose last
resort is the literal `Nota` followed by 4 or more digits); when no pattern
matches, the identifier is `none` while the document type is still
returned. -/
theorem extractNF_characterization (t : String) :
    ((extractNFInfoFromPDF t).tipo = "ND" ↔
      (strContains (jsToUpperStr t) "NOTA DE DÉBITO" ||
       strContains (jsToUpperStr t) "NOTA DE DEBITO") = true) ∧
    ((extractNFInfoFromPDF t).tipo = "ND" ∨ (extractNFInfoFromPDF t).tipo = "NFS") ∧
    ((extractNFInfoFromPDF t).nf = none ↔ ∀ p ∈ nfPatterns, p t.data = none) ∧
    (∀ n, nfPatterns.findSome? (fun p => p t.data) = some n →
      (extractNFInfoFromPDF t).nf = some n) ∧
    nfPatterns.getLast? = some (searchPat (dropLitCI "Nota".data) 4) := by
  refine ⟨?_, ?_, ?_, fun n h => h, rfl⟩
  · show (if (strContains (jsToUpperStr t) "NOTA DE DÉBITO" ||
        strContains (jsToUpperStr t) "NOTA DE DEBITO") = true then "ND" else "NFS") = "ND" ↔ _
    by_cases hc : (strContains (jsToUpperStr t) "NOTA DE DÉBITO" ||
        strContains (jsToUpperStr t) "NOTA DE DEBITO") = true
    · rw [if_pos hc]
      exact ⟨fun _ => hc, fun _ => rfl⟩
    · rw [if_neg hc]
      exact ⟨fun hnd => absurd hnd (by decide), fun hb => absurd hb hc⟩
  · show (if (strContains (jsToUpperStr t) "NOTA DE DÉBITO" ||
        strContains (jsToUpperStr t) "NOTA DE DEBITO") = true then "ND" else "NFS") = "ND" ∨ _
    by_cases hc : (strContains (jsToUpperStr t) "NOTA DE DÉBITO" ||
        strContains (jsToUpperStr t) "NOTA DE DEBITO") = true
    · exact Or.inl (by rw [if_pos hc])
    · refine Or.inr ?_
      show (if _ = true then "ND" else "NFS") = "NFS"
      rw [if_neg hc]
  · show nfPatterns.findSome? (fun p => p t.data) = none ↔ _
    exact List.findSome?_eq_none_iff

theorem extractNF_characterization_witness :
    (extractNFInfoFromPDF "Documento Nota 12345").tipo = "NFS" := by
  rcases (extractNF_characterization "Documento Nota 12345").2.1 with h | h
  · exact absurd ((extractNF_characterization "Documento Nota 12345").1.mp h) (by decide)
  · exact h

/-! ### C7 -/

/-- C7: for the non-Magalu matcher, when the filename and identifier+amount
strategies both fail, if some record's amount in one of the five renderings
is a substring of the normalized PDF text, `findMatchingRow` returns the
amount-only strategy's result (the first such record) and never `none`. -/
theorem amount_only_fallback (pdfText fileName marketplace : String) (rows : List TableRow)
    (hmp : marketplace ≠ "Magalu")
    (h1 : matchByFileName fileName rows = none)
    (h2 : matchByNfValor (normalizeSpace1 pdfText) rows = none)
    (h3 : ∃ row ∈ rows, valorFoundIn (normalizeSpace1 pdfText) row = true) :
    findMatchingRow pdfText rows fileName marketplace =
      matchByValor (normalizeSpace1 pdfText) rows ∧
    findMatchingRow pdfText rows fileName marketplace ≠ none := by
  have hsome : (matchByValor (normalizeSpace1 pdfText) rows).isSome = true := by
    simp only [matchByValor]
    exact List.find?_isSome.mpr h3
  obtain ⟨r, hr⟩ := Option.isSome_iff_exists.mp hsome
  have heq : findMatchingRow pdfText rows fileName marketplace = some r := by
    simp only [findMatchingRow, if_neg hmp, h1, orElse_none_eval, h2, hr, orElse_some_eval]
  refine ⟨heq.trans hr.symm, ?_⟩
  rw [heq]
  exact fun hc => Option.noConfusion hc

theorem amount_only_fallback_witness :
    findMatchingRow "10,00" [⟨some "9999999", 1000, "10,00", "d", none⟩] "a.pdf" "Shopee" =
      matchByValor (normalizeSpace1 "10,00") [⟨some "9999999", 1000, "10,00", "d", none⟩] ∧
    findMatchingRow "10,00" [⟨some "9999999", 1000, "10,00", "d", none⟩] "a.pdf" "Shopee" ≠
      none :=
  amount_only_fallback "10,00" "a.pdf" "Shopee" [⟨some "9999999", 1000, "10,00", "d", none⟩]
    (by decide) (by decide) (by decide)
    ⟨⟨some "9999999", 1000, "10,00", "d", none⟩, by decide, by decide⟩

/-! ### C8 -/

/-- C8: `findMatchingRow` never mutates the record set (the embedding is a
pure function of it, mirroring the source, which only reads `tableData` and
builds the Magalu result as a fresh spread copy): every returned record is,
for the Magalu variant, a copy of some input record with only `nf`/`tipo`
replaced, and for the other variants, exactly some input record; amount,
display string and description are preserved in all cases. -/
theorem findMatchingRow_frame (pdfText fileName marketplace : String)
    (rows : List TableRow) (r : TableRow)
    (h : findMatchingRow pdfText rows fileName marketplace = some r) :
    ∃ row ∈ rows,
      r.valor = row.valor ∧ r.valorFormatado = row.valorFormatado ∧
      r.descricao = row.descricao ∧
      ((marketplace = "Magalu" ∧ r = magaluUpdate pdfText row) ∨
       (marketplace ≠ "Magalu" ∧ r = row)) := by
  by_cases hmp : marketplace = "Magalu"
  · rw [findMatchingRow, if_pos hmp] at h
    simp only [findMatchingRowMagalu] at h
    rw [Option.map_eq_some'] at h
    obtain ⟨row, hfind, hupd⟩ := h
    refine ⟨row, List.mem_of_find?_eq_some hfind, ?_, ?_, ?_, Or.inl ⟨hmp, hupd.symm⟩⟩
    · rw [← hupd]
      exact rfl
    · rw [← hupd]
      exact rfl
    · rw [← hupd]
      exact rfl
  · rw [findMatchingRow, if_neg hmp] at h
    rcases orElse_eq_some_cases _ _ _ h with h1 | ⟨_, h1⟩
    · simp only [matchByFileName] at h1
      obtain ⟨g, _, hfind⟩ := List.exists_of_findSome?_eq_some h1
      exact ⟨r, List.mem_of_find?_eq_some hfind, rfl, rfl, rfl, Or.inr ⟨hmp, rfl⟩⟩
    · rcases orElse_eq_some_cases _ _ _ h1 with h2 | ⟨_, h2⟩
      · simp only [matchByNfValor] at h2
        exact ⟨r, List.mem_of_find?_eq_some h2, rfl, rfl, rfl, Or.inr ⟨hmp, rfl⟩⟩
      · rcases orElse_eq_some_cases _ _ _ h2 with h3 | ⟨_, h3⟩
        · simp only [matchByValor] at h3
          exact ⟨r, List.mem_of_find?_eq_some h3, rfl, rfl, rfl, Or.inr ⟨hmp, rfl⟩⟩
        · simp only [matchByNf] at h3
          exact ⟨r, List.mem_of_find?_eq_some h3, rfl, rfl, rfl, Or.inr ⟨hmp, rfl⟩⟩

theorem findMatchingRow_frame_witness :
    (⟨some "12345", 1000, "10,00", "d", some "NFS"⟩ : TableRow).valor = 1000 := by
  obtain ⟨row, hmem, hval, _, _, _⟩ :=
    findMatchingRow_frame "10,00 Nota 12345" "x.pdf" "Magalu"
      [⟨none, 1000, "10,00", "d", none⟩] ⟨some "12345", 1000, "10,00", "d", some "NFS"⟩
      (by decide)
  have hrow : row = ⟨none, 1000, "10,00", "d", none⟩ := by
    simpa using hmem
  rw [hval, hrow]

/-! ### C9 -/

theorem nfTruthy_spec (r : TableRow) (h : nfTruthy r = true) :
    r.nf ≠ none ∧ r.nf ≠ some "" := by
  rw [nfTruthy, bne_iff_ne] at h
  constructor
  · intro hc
    rw [hc] at h
    exact h rfl
  · intro hc
    rw [hc] at h
    exact h rfl

theorem extractDigitGroupsGo_ne_empty :
    ∀ (fuel : Nat) (cs : List Char) (g : String),
      g ∈ extractDigitGroupsGo fuel cs → g ≠ "" := by
  intro fuel
  induction fuel with
  | zero => intro cs g hg; simp [extractDigitGroupsGo] at hg
  | succ fuel ih =>
    intro cs g hg
    cases cs with
    | nil => simp [extractDigitGroupsGo] at hg
    | cons c rest =>
      rw [extractDigitGroupsGo] at hg
      by_cases hrun : 7 ≤ ((c :: rest).takeWhile Char.isDigit).length
      · rw [if_pos hrun] at hg
        rcases List.mem_cons.mp hg with hhead | htail
        · subst hhead
          intro hc
          have hlen : ((((c :: rest).takeWhile Char.isDigit).take 9).asString).data = [] := by
            rw [hc]
          have : (((c :: rest).takeWhile Char.isDigit).take 9).length = 0 := by
            have hd : (((c :: rest).takeWhile Char.isDigit).take 9).asString.data =
                ((c :: rest).takeWhile Char.isDigit).take 9 := rfl
            rw [hd] at hlen
            rw [hlen]
            rfl
          rw [List.length_take] at this
          omega
        · exact ih _ _ htail
      · rw [if_neg hrun] at hg
        exact ih _ _ hg

/-- C9: in the non-Magalu matcher, a record whose identifier is `null` or
`''` is never returned by the identifier+amount strategy or the
identifier-only strategy; through the whole cascade such a record can only
come from the amount-only strategy (its amount must occur in the text); and
the empty-identifier case is reachable: the Mercado Livre parser turns the
line `000` into a record whose identifier is the empty string. -/
theorem falsy_identifier_skipped (npdf : String) (rows : List TableRow) :
    (∀ r, matchByNfValor npdf rows = some r → r.nf ≠ none ∧ r.nf ≠ some "") ∧
    (∀ r, matchByNf npdf rows = some r → r.nf ≠ none ∧ r.nf ≠ some "") ∧
    (∀ pdfText fileName marketplace r, marketplace ≠ "Magalu" →
      findMatchingRow pdfText rows fileName marketplace = some r →
      (r.nf = none ∨ r.nf = some "") →
      valorFoundIn (normalizeSpace1 pdfText) r = true) ∧
    parseTableTextMercadoLivre "000\n10,00" =
      [⟨some "", 1000, "10,00", "Serviço", none⟩] := by
  refine ⟨?_, ?_, ?_, by decide⟩
  · intro r h
    simp only [matchByNfValor] at h
    have hp := List.find?_some h
    rw [Bool.and_eq_true, Bool.and_eq_true] at hp
    exact nfTruthy_spec r hp.1.1
  · intro r h
    simp only [matchByNf] at h
    have hp := List.find?_some h
    rw [Bool.and_eq_true] at hp
    exact nfTruthy_spec r hp.1
  · intro pdfText fileName marketplace r hmp h hfalsy
    rw [findMatchingRow, if_neg hmp] at h
    rcases orElse_eq_some_cases _ _ _ h with h1 | ⟨_, h1⟩
    · simp only [matchByFileName] at h1
      obtain ⟨g, hgmem, hfind⟩ := List.exists_of_findSome?_eq_some h1
      have hp := List.find?_some hfind
      have hnf : r.nf = some g := eq_of_beq hp
      have hgne : g ≠ "" := extractDigitGroupsGo_ne_empty _ _ g hgmem
      rcases hfalsy with hfn | hfe
      · rw [hfn] at hnf; exact absurd hnf (by simp)
      · rw [hfe] at hnf
        have : g = "" := by injection hnf.symm
        exact absurd this hgne
    · rcases orElse_eq_some_cases _ _ _ h1 with h2 | ⟨_, h2⟩
      · simp only [matchByNfValor] at h2
        have hp := List.find?_some h2
        rw [Bool.and_eq_true, Bool.and_eq_true] at hp
        have := nfTruthy_spec r hp.1.1
        rcases hfalsy with hfn | hfe
        · exact absurd hfn this.1
        · exact absurd hfe this.2
      · rcases orElse_eq_some_cases _ _ _ h2 with h3 | ⟨_, h3⟩
        · simp only [matchByValor] at h3
          exact List.find?_some h3
        · simp only [matchByNf] at h3
          have hp := List.find?_some h3
          rw [Bool.and_eq_true] at hp
          have := nfTruthy_spec r hp.1
          rcases hfalsy with hfn | hfe
          · exact absurd hfn this.1
          · exact absurd hfe this.2

theorem falsy_identifier_skipped_witness :
    (⟨some "1234567", 1000, "10,00", "d", none⟩ : TableRow).nf ≠ none :=
  ((falsy_identifier_skipped (normalizeSpace1 "1234567 10,00")
      [⟨some "1234567", 1000, "10,00", "d", none⟩]).1
      ⟨some "1234567", 1000, "10,00", "d", none⟩ (by decide)).1

end Renota
